import Mathlib

/-!
Shallow embedding of the masterblog-api backend (`src/backend/backend_app.py`)
and proofs about its post store and post service operations.

Modelling conventions:
* A stored post is a record whose text fields are `Option String` (`none`
  models a JSON object without that key); `id` and `likes` are `Int`
  (Python integers are unbounded).
* Each HTTP handler is modelled as a pure function from the loaded post
  list (the persisted store state) and the request inputs to the pair of
  the store state that gets persisted and the response.  Handlers that
  return an error before calling `_save_posts` leave the store component
  equal to their input.
* Python's `sorted(..., key=k, reverse=r)` is a stable sort by key; it is
  modelled by `pySorted`, a stable insertion sort with the same key and
  direction.
* `datetime.strptime(s, "%Y-%m-%d")` is modelled by `parseYMD`, following
  CPython's `_strptime` regexes: a 4-digit year, a 1-2 digit month in
  1..12, a 1-2 digit day in 1..31 further checked against the length of
  the month, and no trailing characters.
-/

namespace Masterblog

/-- Decidable equality for `Except`, used to evaluate handler results on
concrete inputs. -/
instance {ε α : Type} [DecidableEq ε] [DecidableEq α] : DecidableEq (Except ε α) := fun a b =>
  match a, b with
  | .error x, .error y =>
    if h : x = y then .isTrue (congrArg Except.error h)
    else .isFalse (fun hc => h (Except.error.inj hc))
  | .ok x, .ok y =>
    if h : x = y then .isTrue (congrArg Except.ok h)
    else .isFalse (fun hc => h (Except.ok.inj hc))
  | .error _, .ok _ => .isFalse (fun hc => Except.noConfusion hc)
  | .ok _, .error _ => .isFalse (fun hc => Except.noConfusion hc)

/-- A comment attached to a post (serialized comment shape). -/
structure Comment where
  id : Int
  author : String
  text : String
  date : String
deriving DecidableEq, Repr

/-- A post as stored in the JSON file.  Text fields are `Option String`:
`none` models a JSON object that lacks the key. -/
structure Post where
  id : Int
  title : Option String
  content : Option String
  author : Option String
  date : Option String
  likes : Int
  comments : List Comment
deriving DecidableEq, Repr

/-- Python's `str.isspace` characters in the ASCII range (space, tab,
newline, carriage return, vertical tab, form feed). -/
def isPySpace (c : Char) : Bool :=
  c == ' ' || c == '\t' || c == '\n' || c == '\r' || c.toNat == 11 || c.toNat == 12

/-- Drop leading whitespace from a character list. -/
def dropSpaceLeft : List Char → List Char
  | [] => []
  | c :: rest => if isPySpace c then dropSpaceLeft rest else c :: rest

/-- Python's `str.strip()`: remove leading and trailing whitespace. -/
def pyStrip (s : String) : String :=
  ⟨(dropSpaceLeft (dropSpaceLeft s.data).reverse).reverse⟩

/-- `_as_str` from the source: `"" if value is None else str(value).strip()`. -/
def _as_str (v : Option String) : String :=
  match v with
  | none => ""
  | some s => pyStrip s

/-- Maximum of a list of ids with Python's `max(gen, default=0)` semantics:
the default is used only when the list is empty. -/
def maxIdOr0 : List Int → Int
  | [] => 0
  | x :: xs => xs.foldl max x

/-- `_next_id` from the source:
`max((int(p.get("id", 0)) for p in posts), default=0) + 1`. -/
def _next_id (posts : List Post) : Int :=
  maxIdOr0 (posts.map (·.id)) + 1

/-- `_find_post` from the source: first post whose id equals `post_id`. -/
def _find_post (posts : List Post) (post_id : Int) : Option Post :=
  posts.find? (fun p => p.id == post_id)

/-- In-place mutation of the post object returned by `_find_post`, as seen
in the list that is afterwards passed to `_save_posts`: the first post with
the matching id is replaced. -/
def replaceFirst (posts : List Post) (post_id : Int) (t : Post) : List Post :=
  match posts with
  | [] => []
  | p :: rest => if p.id == post_id then t :: rest else p :: replaceFirst rest post_id t

/-- Leap year test, as in Python's `calendar`/`datetime`. -/
def isLeap (y : Nat) : Bool :=
  (y % 4 == 0 && y % 100 != 0) || y % 400 == 0

/-- Days in a month, as checked by `datetime`'s constructor. -/
def daysInMonth (y m : Nat) : Nat :=
  if m = 2 then (if isLeap y then 29 else 28)
  else if m = 4 ∨ m = 6 ∨ m = 9 ∨ m = 11 then 30
  else 31

/-- Split a character list at every `'-'` (as `str.split("-")` does for a
single-character separator). -/
def splitDash : List Char → List (List Char)
  | [] => [[]]
  | c :: rest =>
    let r := splitDash rest
    if c == '-' then [] :: r
    else
      match r with
      | [] => [[c]]
      | h :: t => (c :: h) :: t

/-- Parse a non-empty all-digit character list as a natural number. -/
def digitsToNat? (l : List Char) : Option Nat :=
  if l.isEmpty then none
  else if l.all (fun c => 48 ≤ c.toNat && c.toNat ≤ 57) then
    some (l.foldl (fun acc c => acc * 10 + (c.toNat - 48)) 0)
  else none

/-- `datetime.strptime(s, "%Y-%m-%d")` modelled after CPython's `_strptime`
regexes: `%Y` is exactly 4 digits, `%m` is 1-2 digits with value 1..12,
`%d` is 1-2 digits with value 1..31, the whole string must be consumed, and
the resulting triple must be a real calendar date. -/
def parseYMD (s : String) : Option (Nat × Nat × Nat) :=
  match splitDash s.data with
  | [ys, ms, ds] =>
    match digitsToNat? ys, digitsToNat? ms, digitsToNat? ds with
    | some y, some m, some d =>
      if ys.length = 4 ∧ (ms.length = 1 ∨ ms.length = 2) ∧
          (ds.length = 1 ∨ ds.length = 2) ∧
          1 ≤ m ∧ m ≤ 12 ∧ 1 ≤ d ∧ d ≤ daysInMonth y m then
        some (y, m, d)
      else none
    | _, _, _ => none
  | _ => none

/-- `datetime` comparison on `(year, month, day)` triples (lexicographic). -/
def dateLe (a b : Nat × Nat × Nat) : Bool :=
  a.1 < b.1 || (a.1 == b.1 && (a.2.1 < b.2.1 || (a.2.1 == b.2.1 && a.2.2 ≤ b.2.2)))

/-- `_parse_date` from the source: empty string is rejected, then the text
must parse as `%Y-%m-%d` and lie within `DATE_MIN = 1900-01-01` and
`DATE_MAX = 2100-12-31` inclusive. -/
def _parse_date (date_str : String) : Option (Nat × Nat × Nat) :=
  if date_str = "" then none
  else
    match parseYMD date_str with
    | none => none
    | some v =>
      if dateLe (1900, 1, 1) v && dateLe v (2100, 12, 31) then some v else none

/-- The two seed posts written by `_load_posts` when the file is missing. -/
def seedPosts : List Post :=
  [ { id := 1, title := some "First post", content := some "This is the first post.",
      author := some "System", date := some "2023-01-01", likes := 0, comments := [] },
    { id := 2, title := some "Second post", content := some "This is the second post.",
      author := some "System", date := some "2023-01-02", likes := 0, comments := [] } ]

/-- Outcome of reading the storage file, abstracting the file system:
the file is missing, or it parses as a JSON array of posts, or it parses
as JSON that is not an array, or `json.load` raises `JSONDecodeError`, or
reading raises `OSError`. -/
inductive FileState where
  | missing
  | readList (posts : List Post)
  | readNonList
  | readParseError
  | readIOError
deriving DecidableEq, Repr

/-- `_load_posts` from the source: missing file is seeded; a parsed JSON
array is returned as-is; a non-array JSON document gives `[]`; a
`JSONDecodeError` or `OSError` gives `[]`. -/
def _load_posts : FileState → List Post
  | .missing => seedPosts
  | .readList posts => posts
  | .readNonList => []
  | .readParseError => []
  | .readIOError => []

/-- ASCII lower-casing of one character. -/
def lowerChar (c : Char) : Char :=
  if 65 ≤ c.toNat ∧ c.toNat ≤ 90 then Char.ofNat (c.toNat + 32) else c

/-- Python `str.lower()` (ASCII range, which covers the data in scope). -/
def lowerStr (s : String) : String :=
  ⟨s.data.map lowerChar⟩

/-- `needle` matches at the head of the second list. -/
def leadMatch : List Char → List Char → Bool
  | [], _ => true
  | _ :: _, [] => false
  | a :: as, b :: bs => a == b && leadMatch as bs

/-- Python's substring test `needle in hay` on lists of characters. -/
def containsSub (needle : List Char) : List Char → Bool
  | [] => needle.isEmpty
  | b :: bs => leadMatch needle (b :: bs) || containsSub needle bs

/-- Case-insensitive substring test, Python's
`needle.lower() in hay.lower()`. -/
def substrCI (needle hay : String) : Bool :=
  containsSub (lowerStr needle).data (lowerStr hay).data

/-- Python's `<=` on strings restricted to the character lists: lexicographic
comparison by code point. -/
def strLeAux : List Char → List Char → Bool
  | [], _ => true
  | _ :: _, [] => false
  | a :: as, b :: bs =>
    if a.toNat < b.toNat then true
    else if b.toNat < a.toNat then false
    else strLeAux as bs

/-- Python's `<=` on strings: lexicographic comparison by code point. -/
def strLe (a b : String) : Bool :=
  strLeAux a.data b.data

/-- Stable insertion of `x` into `l`: `x` is placed in front of the first
element `y` with `le x y`, so among elements with equivalent keys the
already-present ones stay first. -/
def insertLe {α : Type} (le : α → α → Bool) (x : α) : List α → List α
  | [] => [x]
  | y :: ys => if le x y then x :: y :: ys else y :: insertLe le x ys

/-- Stable insertion sort with comparator `le`. -/
def stableSortBy {α : Type} (le : α → α → Bool) : List α → List α
  | [] => []
  | x :: xs => insertLe le x (stableSortBy le xs)

/-- Python's `sorted(l, key=key, reverse=reverse)`: a stable sort by key.
`reverse=True` keeps equal-key elements in their original order, which is
exactly a stable sort under the flipped comparator. -/
def pySorted {α : Type} (key : α → String) (reverse : Bool) (l : List α) : List α :=
  stableSortBy (fun a b => if reverse then strLe (key b) (key a) else strLe (key a) (key b)) l

/-- Dictionary access `p.get(field)` for the string fields of a post. -/
def fieldGet (p : Post) : String → Option String
  | "title" => p.title
  | "content" => p.content
  | "author" => p.author
  | "date" => p.date
  | _ => none

/-- The sort key used by `list_posts`:
`_as_str(p.get(sort_field)).lower()`. -/
def sortKey (sort_field : String) (p : Post) : String :=
  lowerStr (_as_str (fieldGet p sort_field))

/-- `list_posts` (handler for `GET /api/posts`).  A falsy `sort` parameter
(absent or empty) skips sorting and the direction check entirely; an
unrecognized field, or a direction other than `asc`/`desc` when a valid
field is given, is a 400 error.  The final `[_serialize(p) for p in posts]`
is an order-preserving per-element projection and is left out of the model;
the result is the ordered post list itself. -/
def list_posts (posts : List Post) (sort_field direction : Option String) :
    Except String (List Post) :=
  match sort_field with
  | none => .ok posts
  | some sf =>
    if sf = "" then .ok posts
    else if sf ≠ "title" ∧ sf ≠ "content" then
      .error "Invalid sort field. Use one of: title, content."
    else
      let dir := match direction with
        | none => "asc"
        | some d => d
      if dir ≠ "asc" ∧ dir ≠ "desc" then
        .error "Invalid direction. Use asc or desc."
      else
        .ok (pySorted (sortKey sf) (dir = "desc") posts)

/-- Request body of `POST /api/posts`; `none` models an absent key. -/
structure CreateInput where
  title : Option String
  content : Option String
  author : Option String
  date : Option String
deriving DecidableEq, Repr

/-- The `missing_or_invalid` list built by `create_post`: field names are
appended in the fixed order title, content, author, date, one per failed
check. -/
def createMissing (data : CreateInput) : List String :=
  let title := _as_str data.title
  let content := _as_str data.content
  let author := _as_str data.author
  let date_str := _as_str data.date
  (if title = "" then ["title"] else []) ++
    (if content = "" then ["content"] else []) ++
      (if author = "" then ["author"] else []) ++
        (if (_parse_date date_str).isNone then ["date"] else [])

/-- `create_post` (handler for `POST /api/posts`): validate all fields, and
on success append a post with id `_next_id posts`, `likes = 0` and no
comments, then persist.  On a validation error nothing is persisted and the
failing field names are reported together. -/
def create_post (posts : List Post) (data : CreateInput) :
    List Post × Except (List String) Post :=
  let missing_or_invalid := createMissing data
  if missing_or_invalid ≠ [] then (posts, .error missing_or_invalid)
  else
    let post : Post :=
      { id := _next_id posts, title := some (_as_str data.title),
        content := some (_as_str data.content), author := some (_as_str data.author),
        date := some (_as_str data.date), likes := 0, comments := [] }
    (posts ++ [post], .ok post)

/-- Request body of `PUT /api/posts/<id>`; `none` models an absent key,
`some v` models the key present with string value `v`. -/
structure UpdateInput where
  title : Option String
  content : Option String
  author : Option String
  date : Option String
deriving DecidableEq, Repr

/-- Response of `update_post`. -/
inductive UpdateResp where
  | notFound
  | invalidDate
  | updated (post : Post)
deriving DecidableEq, Repr

/-- One `if "field" in data: value = _as_str(data["field"]); if value:
target["field"] = value` block of `update_post`: an absent key or a value
that trims to the empty string keeps the stored value, a non-empty trimmed
value replaces it. -/
def mergeOpt (old : Option String) : Option String → Option String
  | none => old
  | some raw =>
    let value := pyStrip raw
    if value = "" then old else some value

/-- `update_post` (handler for `PUT /api/posts/<id>`): look up the post;
merge title, content, author in that order, where an absent key or a value
that trims to the empty string leaves the field unchanged; then, if a date
key with a non-empty trimmed value is present, validate it with
`_parse_date` and return a 400 error without calling `_save_posts` when it
fails.  The first component of the result is the post list that gets
persisted: on every error path it is the unchanged input list. -/
def update_post (posts : List Post) (post_id : Int) (data : UpdateInput) :
    List Post × UpdateResp :=
  match _find_post posts post_id with
  | none => (posts, .notFound)
  | some target =>
    let target := { target with title := mergeOpt target.title data.title }
    let target := { target with content := mergeOpt target.content data.content }
    let target := { target with author := mergeOpt target.author data.author }
    match data.date with
    | none => (replaceFirst posts post_id target, .updated target)
    | some raw =>
      let value := pyStrip raw
      if value = "" then (replaceFirst posts post_id target, .updated target)
      else if (_parse_date value).isNone then (posts, .invalidDate)
      else
        let target := { target with date := some value }
        (replaceFirst posts post_id target, .updated target)

/-- Query string of `GET /api/posts/search`.  All four parameters can be
supplied by a client; the handler reads only `title` and `content`. -/
structure SearchInput where
  title : Option String
  content : Option String
  author : Option String
  date : Option String
deriving DecidableEq, Repr

/-- The `_match` predicate inside `search_posts`: a falsy (absent or empty)
term imposes no constraint, a non-empty term must occur case-insensitively
in the corresponding field; the `author` and `date` query parameters are
never read. -/
def _match (data : SearchInput) (entry : Post) : Bool :=
  let title_ok := match data.title with
    | none => true
    | some t => if t = "" then true else substrCI t (_as_str entry.title)
  let content_ok := match data.content with
    | none => true
    | some c => if c = "" then true else substrCI c (_as_str entry.content)
  title_ok && content_ok

/-- `search_posts` (handler for `GET /api/posts/search`). -/
def search_posts (posts : List Post) (data : SearchInput) : List Post :=
  posts.filter (_match data)

/-- Response of `add_comment`. -/
inductive CommentResp where
  | notFound
  | badInput
  | created (c : Comment)
deriving DecidableEq, Repr

/-- `add_comment` (handler for `POST /api/posts/<id>/comments`): look up the
post, require author and text non-empty after trimming, assign the comment
id `max((int(c.get("id", 0)) for c in comments), default=0) + 1` from the
target post's own comment list, stamp `today` (the current UTC date, passed
in as a parameter), append and persist. -/
def add_comment (posts : List Post) (post_id : Int)
    (authorIn textIn : Option String) (today : String) : List Post × CommentResp :=
  match _find_post posts post_id with
  | none => (posts, .notFound)
  | some target =>
    let author := _as_str authorIn
    let text := _as_str textIn
    if author = "" ∨ text = "" then (posts, .badInput)
    else
      let comments := target.comments
      let next_comment_id := maxIdOr0 (comments.map (·.id)) + 1
      let new_comment : Comment :=
        { id := next_comment_id, author := author, text := text, date := today }
      let target := { target with comments := comments ++ [new_comment] }
      (replaceFirst posts post_id target, .created new_comment)

/-- Run a sequence of create operations against a store, collecting the
final store and the ids assigned by the successful creates, in order. -/
def runCreates (posts : List Post) : List CreateInput → List Post × List Int
  | [] => (posts, [])
  | d :: rest =>
    match create_post posts d with
    | (posts', .ok p) =>
      let r := runCreates posts' rest
      (r.1, p.id :: r.2)
    | (posts', .error _) => runCreates posts' rest

/-! ### Order properties of the lexicographic comparison -/

theorem strLeAux_refl (xs : List Char) : strLeAux xs xs = true := by
  induction xs with
  | nil => rfl
  | cons a as ih => simp [strLeAux, ih]

theorem strLeAux_total (xs ys : List Char) :
    strLeAux xs ys = true ∨ strLeAux ys xs = true := by
  induction xs generalizing ys with
  | nil => left; rfl
  | cons a as ih =>
    cases ys with
    | nil => right; rfl
    | cons b bs =>
      by_cases h1 : a.toNat < b.toNat
      · left; simp [strLeAux, h1]
      · by_cases h2 : b.toNat < a.toNat
        · right; simp [strLeAux, h1, h2]
        · rcases ih bs with h | h
          · left; simp [strLeAux, h1, h2, h]
          · right; simp [strLeAux, h1, h2, h]

theorem strLeAux_trans (xs ys zs : List Char) (h1 : strLeAux xs ys = true)
    (h2 : strLeAux ys zs = true) : strLeAux xs zs = true := by
  induction xs generalizing ys zs with
  | nil => rfl
  | cons a as ih =>
    cases ys with
    | nil => simp [strLeAux] at h1
    | cons b bs =>
      cases zs with
      | nil => simp [strLeAux] at h2
      | cons c cs =>
        simp only [strLeAux] at h1 h2 ⊢
        by_cases hab : a.toNat < b.toNat
        · by_cases hbc : b.toNat < c.toNat
          · simp [Nat.lt_trans hab hbc]
          · rw [if_neg hbc] at h2
            by_cases hcb : c.toNat < b.toNat
            · rw [if_pos hcb] at h2; exact absurd h2 (by simp)
            · have : a.toNat < c.toNat := by omega
              simp [this]
        · rw [if_neg hab] at h1
          by_cases hba : b.toNat < a.toNat
          · rw [if_pos hba] at h1; exact absurd h1 (by simp)
          · rw [if_neg hba] at h1
            by_cases hbc : b.toNat < c.toNat
            · have : a.toNat < c.toNat := by omega
              simp [this]
            · rw [if_neg hbc] at h2
              by_cases hcb : c.toNat < b.toNat
              · rw [if_pos hcb] at h2; exact absurd h2 (by simp)
              · rw [if_neg hcb] at h2
                have hac : ¬ a.toNat < c.toNat := by omega
                have hca : ¬ c.toNat < a.toNat := by omega
                simp [hac, hca, ih bs cs h1 h2]

theorem strLe_refl (s : String) : strLe s s = true := strLeAux_refl s.data

theorem strLe_total (a b : String) : strLe a b = true ∨ strLe b a = true :=
  strLeAux_total a.data b.data

theorem strLe_trans (a b c : String) (h1 : strLe a b = true) (h2 : strLe b c = true) :
    strLe a c = true := strLeAux_trans a.data b.data c.data h1 h2

/-! ### Stable insertion sort: permutation, sortedness, stability -/

theorem insertLe_perm {α : Type} (le : α → α → Bool) (x : α) (l : List α) :
    (insertLe le x l).Perm (x :: l) := by
  induction l with
  | nil => exact List.Perm.refl _
  | cons y ys ih =>
    by_cases h : le x y = true
    · simp [insertLe, h]
    · rw [insertLe, if_neg h]
      exact (ih.cons y).trans (List.Perm.swap x y ys)

theorem mem_insertLe {α : Type} (le : α → α → Bool) (x : α) (l : List α) (b : α)
    (hb : b ∈ insertLe le x l) : b = x ∨ b ∈ l := by
  have := (insertLe_perm le x l).mem_iff.mp hb
  simpa using this

theorem insertLe_pairwise {α : Type} (le : α → α → Bool)
    (htot : ∀ a b, le a b = true ∨ le b a = true)
    (htrans : ∀ a b c, le a b = true → le b c = true → le a c = true)
    (x : α) (l : List α) (h : l.Pairwise (fun a b => le a b = true)) :
    (insertLe le x l).Pairwise (fun a b => le a b = true) := by
  induction l with
  | nil => simp [insertLe]
  | cons y ys ih =>
    rcases List.pairwise_cons.mp h with ⟨hy, hys⟩
    by_cases hxy : le x y = true
    · rw [insertLe, if_pos hxy]
      refine List.pairwise_cons.mpr ⟨?_, h⟩
      intro b hb
      rcases List.mem_cons.mp hb with rfl | hb'
      · exact hxy
      · exact htrans x y b hxy (hy b hb')
    · rw [insertLe, if_neg hxy]
      refine List.pairwise_cons.mpr ⟨?_, ih hys⟩
      intro b hb
      rcases mem_insertLe le x ys b hb with rfl | hb'
      · rcases htot b y with hc | hc
        · exact absurd hc hxy
        · exact hc
      · exact hy b hb'

theorem insertLe_filter {α : Type} (le : α → α → Bool) (key : α → String)
    (hkey : ∀ a b, key a = key b → le a b = true)
    (x : α) (l : List α) (k : String) :
    (insertLe le x l).filter (fun a => key a == k) =
      (x :: l).filter (fun a => key a == k) := by
  induction l with
  | nil => rfl
  | cons y ys ih =>
    by_cases hxy : le x y = true
    · rw [insertLe, if_pos hxy]
    · rw [insertLe, if_neg hxy]
      have hneq : key x ≠ key y := fun he => hxy (hkey x y he)
      by_cases hyk : (key y == k) = true
      · have hyk' : key y = k := by simpa using hyk
        have hxk : (key x == k) = false := by
          simp only [beq_eq_false_iff_ne, ne_eq]
          intro hc; exact hneq (hc.trans hyk'.symm)
        simp [List.filter_cons, hyk, hxk, ih]
      · simp [List.filter_cons, hyk, ih]

theorem stableSortBy_perm {α : Type} (le : α → α → Bool) (l : List α) :
    (stableSortBy le l).Perm l := by
  induction l with
  | nil => exact List.Perm.refl _
  | cons x xs ih =>
    exact (insertLe_perm le x (stableSortBy le xs)).trans (ih.cons x)

theorem stableSortBy_pairwise {α : Type} (le : α → α → Bool)
    (htot : ∀ a b, le a b = true ∨ le b a = true)
    (htrans : ∀ a b c, le a b = true → le b c = true → le a c = true)
    (l : List α) :
    (stableSortBy le l).Pairwise (fun a b => le a b = true) := by
  induction l with
  | nil => exact List.Pairwise.nil
  | cons x xs ih => exact insertLe_pairwise le htot htrans x _ ih

theorem stableSortBy_filter {α : Type} (le : α → α → Bool) (key : α → String)
    (hkey : ∀ a b, key a = key b → le a b = true)
    (l : List α) (k : String) :
    (stableSortBy le l).filter (fun a => key a == k) =
      l.filter (fun a => key a == k) := by
  induction l with
  | nil => rfl
  | cons x xs ih =>
    exact (insertLe_filter le key hkey x _ k).trans (by simp [List.filter_cons, ih])

/-- The comparator used by `pySorted`. -/
def dirLe (key : α → String) (reverse : Bool) (a b : α) : Bool :=
  if reverse then strLe (key b) (key a) else strLe (key a) (key b)

theorem pySorted_eq {α : Type} (key : α → String) (reverse : Bool) (l : List α) :
    pySorted key reverse l = stableSortBy (dirLe key reverse) l := rfl

theorem dirLe_total {α : Type} (key : α → String) (reverse : Bool) (a b : α) :
    dirLe key reverse a b = true ∨ dirLe key reverse b a = true := by
  cases reverse <;> simp only [dirLe, if_true, if_false, Bool.false_eq_true] <;>
    exact strLe_total _ _

theorem dirLe_trans {α : Type} (key : α → String) (reverse : Bool) (a b c : α)
    (h1 : dirLe key reverse a b = true) (h2 : dirLe key reverse b c = true) :
    dirLe key reverse a c = true := by
  cases reverse <;> simp only [dirLe, if_true, if_false] at h1 h2 ⊢
  · exact strLe_trans _ _ _ h1 h2
  · exact strLe_trans _ _ _ h2 h1

theorem dirLe_of_key_eq {α : Type} (key : α → String) (reverse : Bool) (a b : α)
    (h : key a = key b) : dirLe key reverse a b = true := by
  cases reverse <;> simp only [dirLe, if_true, if_false] <;> rw [h] <;>
    exact strLe_refl _

theorem pySorted_perm {α : Type} (key : α → String) (reverse : Bool) (l : List α) :
    (pySorted key reverse l).Perm l :=
  stableSortBy_perm _ l

theorem pySorted_pairwise {α : Type} (key : α → String) (reverse : Bool) (l : List α) :
    (pySorted key reverse l).Pairwise (fun a b => dirLe key reverse a b = true) :=
  stableSortBy_pairwise _ (dirLe_total key reverse) (dirLe_trans key reverse) l

theorem pySorted_filter {α : Type} (key : α → String) (reverse : Bool) (l : List α)
    (k : String) :
    (pySorted key reverse l).filter (fun a => key a == k) =
      l.filter (fun a => key a == k) :=
  stableSortBy_filter _ key (dirLe_of_key_eq key reverse) l k

theorem pySorted_pairwise_asc {α : Type} (key : α → String) (l : List α) :
    (pySorted key false l).Pairwise (fun a b => strLe (key a) (key b) = true) :=
  pySorted_pairwise key false l

theorem pySorted_pairwise_desc {α : Type} (key : α → String) (l : List α) :
    (pySorted key true l).Pairwise (fun a b => strLe (key b) (key a) = true) :=
  pySorted_pairwise key true l

/-! ### Id allocation -/

theorem foldl_max_init_le (b : Int) (l : List Int) : b ≤ l.foldl max b := by
  induction l generalizing b with
  | nil => exact le_refl b
  | cons x xs ih => exact le_trans (le_max_left b x) (ih (max b x))

theorem mem_le_foldl_max (x b : Int) (l : List Int) (h : x ∈ l) :
    x ≤ l.foldl max b := by
  induction l generalizing b with
  | nil => cases h
  | cons y ys ih =>
    rcases List.mem_cons.mp h with rfl | h'
    · exact le_trans (le_max_right b x) (foldl_max_init_le _ ys)
    · exact ih (max b y) h'

theorem mem_le_maxIdOr0 (x : Int) (l : List Int) (h : x ∈ l) : x ≤ maxIdOr0 l := by
  cases l with
  | nil => cases h
  | cons y ys =>
    rcases List.mem_cons.mp h with rfl | h'
    · exact foldl_max_init_le x ys
    · exact mem_le_foldl_max x y ys h'

theorem maxIdOr0_eq_max? (l : List Int) : maxIdOr0 l = l.max?.getD 0 := by
  cases l <;> rfl

theorem _next_id_gt (posts : List Post) (p : Post) (hp : p ∈ posts) :
    p.id < _next_id posts := by
  have h := mem_le_maxIdOr0 p.id (posts.map (·.id)) (List.mem_map_of_mem _ hp)
  unfold _next_id
  omega

theorem create_post_ok (posts : List Post) (d : CreateInput) (s' : List Post) (p : Post)
    (h : create_post posts d = (s', Except.ok p)) :
    p.id = _next_id posts ∧ s' = posts ++ [p] := by
  simp only [create_post] at h
  by_cases hm : createMissing d ≠ []
  · rw [if_pos hm] at h
    injection h with h1 h2
    exact Except.noConfusion h2
  · rw [if_neg hm] at h
    injection h with h1 h2
    injection h2 with h3
    subst h3
    exact ⟨rfl, h1.symm⟩

theorem create_post_error (posts : List Post) (d : CreateInput) (s' : List Post)
    (e : List String) (h : create_post posts d = (s', Except.error e)) : s' = posts := by
  simp only [create_post] at h
  by_cases hm : createMissing d ≠ []
  · rw [if_pos hm] at h
    injection h with h1 h2
    exact h1.symm
  · rw [if_neg hm] at h
    injection h with h1 h2
    exact Except.noConfusion h2

theorem runCreates_ids (posts : List Post) (ds : List CreateInput) :
    (runCreates posts ds).2.Pairwise (· < ·) ∧
      ∀ i ∈ (runCreates posts ds).2, ∀ p ∈ posts, p.id < i := by
  induction ds generalizing posts with
  | nil =>
    refine ⟨List.Pairwise.nil, ?_⟩
    intro i hi
    cases hi
  | cons d rest ih =>
    unfold runCreates
    split
    case _ posts' p heq =>
      obtain ⟨hid, hs⟩ := create_post_ok posts d posts' p heq
      subst hs
      obtain ⟨ihp, ihgt⟩ := ih (posts ++ [p])
      constructor
      · refine List.pairwise_cons.mpr ⟨?_, ihp⟩
        intro i hi
        exact ihgt i hi p (by simp)
      · intro i hi q hq
        rcases List.mem_cons.mp hi with rfl | hi'
        · rw [hid]
          exact _next_id_gt posts q hq
        · exact ihgt i hi' q (List.mem_append_left _ hq)
    case _ posts' e heq =>
      have hps : posts' = posts := create_post_error posts d posts' e heq
      subst hps
      exact ih posts'

/-! ### Fixtures for concrete evaluations -/

/-- A create request with all fields valid. -/
def goodInput : CreateInput :=
  { title := some "t", content := some "c", author := some "a", date := some "2024-01-01" }

/-- The post created by `goodInput` on top of `seedPosts`. -/
def demoCreate3 : Post :=
  { id := 3, title := some "t", content := some "c", author := some "a",
    date := some "2024-01-01", likes := 0, comments := [] }

/-- A create request in which title, content and author are empty and the
date is out of range. -/
def allBadInput : CreateInput :=
  { title := some "", content := some "", author := some "", date := some "1899-12-31" }

/-! ### Claims -/

/-- C1: every successful create assigns the id one more than the maximum id
present in the loaded post list at call time (0 when the list is empty), and
over any sequence of create operations the assigned ids are strictly
increasing, each also strictly greater than every id in the initial store. -/
theorem claim1_create_id_allocation (posts : List Post) (ds : List CreateInput) :
    (∀ s d s' p, create_post s d = (s', Except.ok p) →
      p.id = (s.map Post.id).max?.getD 0 + 1) ∧
    (runCreates posts ds).2.Pairwise (· < ·) ∧
    (∀ i ∈ (runCreates posts ds).2, ∀ p ∈ posts, p.id < i) := by
  refine ⟨?_, (runCreates_ids posts ds).1, (runCreates_ids posts ds).2⟩
  intro s d s' p h
  rw [(create_post_ok s d s' p h).1]
  unfold _next_id
  rw [maxIdOr0_eq_max?]

/-- Witness for C1: creating on top of the seed store assigns id `2 + 1 = 3`,
the ids assigned by a two-create sequence are strictly increasing, and the
first assigned id is greater than the seed id 1. -/
theorem claim1_create_id_allocation_witness :
    demoCreate3.id = (seedPosts.map Post.id).max?.getD 0 + 1 ∧
    (runCreates seedPosts [goodInput, goodInput]).2.Pairwise (· < ·) ∧
    ({ id := 1, title := some "First post", content := some "This is the first post.",
       author := some "System", date := some "2023-01-01", likes := 0,
       comments := [] } : Post).id < 3 := by
  have h := claim1_create_id_allocation seedPosts [goodInput, goodInput]
  refine ⟨?_, h.2.1, ?_⟩
  · exact h.1 seedPosts goodInput (seedPosts ++ [demoCreate3]) demoCreate3 (by decide)
  · exact h.2.2 3 (by decide) _ (by decide)

/-- C2: an update whose body contains a date value that is non-empty after
trimming and fails to parse as `YYYY-MM-DD` within 1900-01-01..2100-12-31 is
rejected with the invalid-date error, and the persisted store is the
unchanged input list — none of the title/content/author merges made earlier
in the call is persisted. -/
theorem claim2_update_invalid_date_rejected (posts : List Post) (post_id : Int)
    (data : UpdateInput) (d : String) (hd : data.date = some d)
    (hne : pyStrip d ≠ "") (hbad : _parse_date (pyStrip d) = none)
    (hfound : (_find_post posts post_id).isSome = true) :
    update_post posts post_id data = (posts, UpdateResp.invalidDate) := by
  obtain ⟨target, hf⟩ := Option.isSome_iff_exists.mp hfound
  unfold update_post
  rw [hf, hd]
  simp [hne, hbad]

/-- Witness for C2: updating seed post 1 with a fresh title and the
unparsable date `2023-13-01` changes nothing and reports the date error. -/
theorem claim2_update_invalid_date_rejected_witness :
    update_post seedPosts 1
        { title := some "new title", content := none, author := none,
          date := some "2023-13-01" } =
      (seedPosts, UpdateResp.invalidDate) :=
  claim2_update_invalid_date_rejected seedPosts 1 _ "2023-13-01" rfl
    (by decide) (by decide) (by decide)

/-- C3: `create_post` reports every failing field by name, in the fixed
order title, content, author, date; each name appears exactly when that
field fails validation, and the input with empty title, content and author
and the out-of-range date `1899-12-31` yields exactly the four names.  When
the list is non-empty the operation fails with it and persists nothing. -/
theorem claim3_create_reports_all_fields (data : CreateInput) :
    ("title" ∈ createMissing data ↔ _as_str data.title = "") ∧
    ("content" ∈ createMissing data ↔ _as_str data.content = "") ∧
    ("author" ∈ createMissing data ↔ _as_str data.author = "") ∧
    ("date" ∈ createMissing data ↔ _parse_date (_as_str data.date) = none) ∧
    createMissing allBadInput = ["title", "content", "author", "date"] ∧
    (∀ posts, createMissing data ≠ [] →
      create_post posts data = (posts, Except.error (createMissing data))) := by
  refine ⟨?_, ?_, ?_, ?_, by decide, ?_⟩
  · unfold createMissing
    by_cases h1 : _as_str data.title = "" <;>
      by_cases h2 : _as_str data.content = "" <;>
        by_cases h3 : _as_str data.author = "" <;>
          by_cases h4 : _parse_date (_as_str data.date) = none <;>
            simp [h1, h2, h3, h4, Option.isNone_iff_eq_none]
  · unfold createMissing
    by_cases h1 : _as_str data.title = "" <;>
      by_cases h2 : _as_str data.content = "" <;>
        by_cases h3 : _as_str data.author = "" <;>
          by_cases h4 : _parse_date (_as_str data.date) = none <;>
            simp [h1, h2, h3, h4, Option.isNone_iff_eq_none]
  · unfold createMissing
    by_cases h1 : _as_str data.title = "" <;>
      by_cases h2 : _as_str data.content = "" <;>
        by_cases h3 : _as_str data.author = "" <;>
          by_cases h4 : _parse_date (_as_str data.date) = none <;>
            simp [h1, h2, h3, h4, Option.isNone_iff_eq_none]
  · unfold createMissing
    by_cases h1 : _as_str data.title = "" <;>
      by_cases h2 : _as_str data.content = "" <;>
        by_cases h3 : _as_str data.author = "" <;>
          by_cases h4 : _parse_date (_as_str data.date) = none <;>
            simp [h1, h2, h3, h4, Option.isNone_iff_eq_none]
  · intro posts hne
    simp only [create_post]
    rw [if_pos hne]

/-- Witness for C3: the all-invalid input fails with exactly the four field
names and leaves the store untouched. -/
theorem claim3_create_reports_all_fields_witness :
    create_post [] allBadInput =
      ([], Except.error ["title", "content", "author", "date"]) := by
  have h := claim3_create_reports_all_fields allBadInput
  have h5 := h.2.2.2.2.1
  have h6 := h.2.2.2.2.2 [] (by rw [h5]; decide)
  rw [h5] at h6
  exact h6

/-- C5: when the backing file exists but does not hold a parsable JSON
array — malformed JSON, a non-array JSON document, or a read error — the
load returns the empty post list instead of failing. -/
theorem claim5_load_corrupt_returns_empty (fs : FileState)
    (hmiss : fs ≠ FileState.missing)
    (hlist : ∀ l, fs ≠ FileState.readList l) :
    _load_posts fs = [] := by
  cases fs with
  | missing => exact absurd rfl hmiss
  | readList l => exact absurd rfl (hlist l)
  | readNonList => rfl
  | readParseError => rfl
  | readIOError => rfl

/-- Witness for C5: a file whose JSON document is not an array (for example
the string `"not a json array"`) loads as the empty list. -/
theorem claim5_load_corrupt_returns_empty_witness :
    _load_posts FileState.readNonList = [] :=
  claim5_load_corrupt_returns_empty FileState.readNonList (by decide)
    (fun l h => FileState.noConfusion h)

/-- C4: on a successful update of an existing post, each of
title/content/author whose input is absent or trims to the empty string
keeps the stored value (no field can be cleared), and a value with
non-empty trim replaces the stored value (as the trimmed text); the merged
post replaces the found post in the persisted list. -/
theorem claim4_update_field_merge (posts : List Post) (post_id : Int)
    (data : UpdateInput) (target : Post)
    (hf : _find_post posts post_id = some target)
    (hdate : data.date = none ∨
      ∃ d, data.date = some d ∧
        (pyStrip d = "" ∨ (_parse_date (pyStrip d)).isSome = true)) :
    ∃ t', update_post posts post_id data =
        (replaceFirst posts post_id t', UpdateResp.updated t') ∧
      (data.title = none → t'.title = target.title) ∧
      (∀ v, data.title = some v → pyStrip v = "" → t'.title = target.title) ∧
      (∀ v, data.title = some v → pyStrip v ≠ "" → t'.title = some (pyStrip v)) ∧
      (data.content = none → t'.content = target.content) ∧
      (∀ v, data.content = some v → pyStrip v = "" → t'.content = target.content) ∧
      (∀ v, data.content = some v → pyStrip v ≠ "" → t'.content = some (pyStrip v)) ∧
      (data.author = none → t'.author = target.author) ∧
      (∀ v, data.author = some v → pyStrip v = "" → t'.author = target.author) ∧
      (∀ v, data.author = some v → pyStrip v ≠ "" → t'.author = some (pyStrip v)) := by
  unfold update_post
  rw [hf]
  rcases hdate with hnone | ⟨d, hd, hcase⟩
  · rw [hnone]
    refine ⟨{ target with
        title := mergeOpt target.title data.title,
        content := mergeOpt target.content data.content,
        author := mergeOpt target.author data.author },
      rfl, ?_, ?_, ?_, ?_, ?_, ?_, ?_, ?_, ?_⟩
    all_goals
      first
        | (intro h; simp [h, mergeOpt])
        | (intro v hv hcond; rw [hv]; simp [mergeOpt, hcond])
  · rw [hd]
    rcases hcase with hemp | hsome
    · refine ⟨{ target with
          title := mergeOpt target.title data.title,
          content := mergeOpt target.content data.content,
          author := mergeOpt target.author data.author },
        by simp [hemp], ?_, ?_, ?_, ?_, ?_, ?_, ?_, ?_, ?_⟩
      all_goals
        first
          | (intro h; simp [h, mergeOpt])
          | (intro v hv hcond; rw [hv]; simp [mergeOpt, hcond])
    · have hne : pyStrip d ≠ "" := by
        intro he
        rw [he] at hsome
        exact absurd hsome (by decide)
      obtain ⟨w, hw⟩ := Option.isSome_iff_exists.mp hsome
      refine ⟨{ target with
          title := mergeOpt target.title data.title,
          content := mergeOpt target.content data.content,
          author := mergeOpt target.author data.author,
          date := some (pyStrip d) },
        by simp [hne, hw], ?_, ?_, ?_, ?_, ?_, ?_, ?_, ?_, ?_⟩
      all_goals
        first
          | (intro h; simp [h, mergeOpt])
          | (intro v hv hcond; rw [hv]; simp [mergeOpt, hcond])

/-- Witness for C4: after creating a post with title `"A"`, an update whose
title is the empty string leaves the title `"A"` (and persists the post
unchanged in that field). -/
theorem claim4_update_field_merge_witness :
    ∃ t', update_post
        [{ id := 1, title := some "A", content := some "c", author := some "a",
           date := some "2024-01-01", likes := 0, comments := [] }] 1
        { title := some "", content := none, author := none, date := none } =
      (replaceFirst
        [{ id := 1, title := some "A", content := some "c", author := some "a",
           date := some "2024-01-01", likes := 0, comments := [] }] 1 t',
        UpdateResp.updated t') ∧
      t'.title = some "A" := by
  obtain ⟨t', heq, _, hemptycase, _⟩ := claim4_update_field_merge
    [{ id := 1, title := some "A", content := some "c", author := some "a",
       date := some "2024-01-01", likes := 0, comments := [] }] 1
    { title := some "", content := none, author := none, date := none }
    { id := 1, title := some "A", content := some "c", author := some "a",
      date := some "2024-01-01", likes := 0, comments := [] }
    (by decide) (Or.inl rfl)
  exact ⟨t', heq, (hemptycase "" rfl (by decide)).trans rfl⟩

/-- C6 counterexample: the claim says a list request with sort field `date`
orders posts by parsed calendar date; in the code `date` is not in the
allowed sort fields `{title, content}`, so the request fails with the
invalid-sort-field error and no ordered post list is produced. -/
theorem claim6_sort_by_date_cex :
    list_posts seedPosts (some "date") (some "asc") =
      Except.error "Invalid sort field. Use one of: title, content." ∧
    ¬ ∃ out, list_posts seedPosts (some "date") (some "asc") = Except.ok out := by
  refine ⟨by decide, ?_⟩
  intro ⟨out, hout⟩
  rw [show list_posts seedPosts (some "date") (some "asc") =
    Except.error "Invalid sort field. Use one of: title, content." from by decide] at hout
  exact Except.noConfusion hout

/-- C6 (amended): `date` is not an allowed sort field; every list request
with sort field `date` is rejected with the invalid-sort-field error, for
every store and every direction value. -/
theorem claim6_sort_by_date_rejected (posts : List Post) (direction : Option String) :
    list_posts posts (some "date") direction =
      Except.error "Invalid sort field. Use one of: title, content." := rfl

/-- The search predicate as the claim describes it, for comparison with the
code: every provided non-empty filter among title, content, author and date
must occur as a case-insensitive substring of the same field. -/
def claimMatch (data : SearchInput) (entry : Post) : Bool :=
  (match data.title with
    | none => true
    | some t => if t = "" then true else substrCI t (_as_str entry.title)) &&
  (match data.content with
    | none => true
    | some c => if c = "" then true else substrCI c (_as_str entry.content)) &&
  (match data.author with
    | none => true
    | some a => if a = "" then true else substrCI a (_as_str entry.author)) &&
  (match data.date with
    | none => true
    | some d => if d = "" then true else substrCI d (_as_str entry.date))

/-- C7 counterexample: a search with the author filter `alice` over the
seed posts (whose author is `System`) returns all posts — the handler never
reads the author (or date) parameter — while the claim predicts the empty
result; so the code's selection differs from the claimed one. -/
theorem claim7_search_author_filter_cex :
    search_posts seedPosts
        { title := none, content := none, author := some "alice", date := none } =
      seedPosts ∧
    seedPosts.filter
        (claimMatch { title := none, content := none, author := some "alice", date := none }) =
      [] ∧
    search_posts seedPosts
        { title := none, content := none, author := some "alice", date := none } ≠
      seedPosts.filter
        (claimMatch { title := none, content := none, author := some "alice", date := none }) := by
  refine ⟨by decide, by decide, ?_⟩
  intro h
  rw [show seedPosts.filter
      (claimMatch { title := none, content := none, author := some "alice", date := none }) =
    [] from by decide] at h
  rw [show search_posts seedPosts
      { title := none, content := none, author := some "alice", date := none } =
    seedPosts from by decide] at h
  exact List.noConfusion h

/-- C7 (amended): a search selects exactly the posts in which each provided
non-empty filter among title and content occurs as a case-insensitive
substring of that field (filters combined with AND, absent or empty values
imposing no constraint, so a search with no title/content filter returns
all posts); the author and date query parameters are ignored entirely. -/
theorem claim7_search_title_content (posts : List Post) (data : SearchInput) :
    (∀ p, p ∈ search_posts posts data ↔ p ∈ posts ∧
      (∀ t, data.title = some t → t ≠ "" → substrCI t (_as_str p.title) = true) ∧
      (∀ c, data.content = some c → c ≠ "" → substrCI c (_as_str p.content) = true)) ∧
    (∀ a d, search_posts posts { data with author := a, date := d } =
      search_posts posts data) ∧
    ((data.title = none ∨ data.title = some "") →
      (data.content = none ∨ data.content = some "") →
      search_posts posts data = posts) := by
  refine ⟨?_, ?_, ?_⟩
  · intro p
    rw [search_posts, List.mem_filter]
    constructor
    · rintro ⟨hp, hm⟩
      refine ⟨hp, ?_, ?_⟩
      · intro t ht hne
        rw [_match, ht] at hm
        simp only [Bool.and_eq_true] at hm
        rcases hm with ⟨hm1, _⟩
        have hm1' : (if t = "" then true else substrCI t (_as_str p.title)) = true := hm1
        rwa [if_neg hne] at hm1'
      · intro c hc hne
        rw [_match, hc] at hm
        simp only [Bool.and_eq_true] at hm
        rcases hm with ⟨_, hm2⟩
        have hm2' : (if c = "" then true else substrCI c (_as_str p.content)) = true := hm2
        rwa [if_neg hne] at hm2'
    · rintro ⟨hp, htit, hcon⟩
      refine ⟨hp, ?_⟩
      rw [_match]
      simp only [Bool.and_eq_true]
      constructor
      · cases hdt : data.title with
        | none => rfl
        | some t =>
          show (if t = "" then true else substrCI t (_as_str p.title)) = true
          by_cases hne : t = ""
          · rw [if_pos hne]
          · rw [if_neg hne]
            exact htit t hdt hne
      · cases hdc : data.content with
        | none => rfl
        | some c =>
          show (if c = "" then true else substrCI c (_as_str p.content)) = true
          by_cases hne : c = ""
          · rw [if_pos hne]
          · rw [if_neg hne]
            exact hcon c hdc hne
  · intro a d
    rfl
  · intro ht hc
    rw [search_posts]
    have hall : ∀ p ∈ posts, _match data p = true := by
      intro p _
      rw [_match]
      simp only [Bool.and_eq_true]
      constructor
      · rcases ht with h | h <;> rw [h] <;> rfl
      · rcases hc with h | h <;> rw [h] <;> rfl
    exact List.filter_eq_self.mpr hall

/-- Witness for C7 (amended): searching the seed posts for title `first`
(case-insensitive) returns exactly the first seed post, the author/date
parameters change nothing, and a search without filters returns everything. -/
theorem claim7_search_title_content_witness :
    ({ id := 1, title := some "First post", content := some "This is the first post.",
       author := some "System", date := some "2023-01-01", likes := 0,
       comments := [] } : Post) ∈ search_posts seedPosts
      { title := some "first", content := none, author := none, date := none } ∧
    search_posts seedPosts
        { title := some "first", content := none, author := some "x", date := some "y" } =
      search_posts seedPosts
        { title := some "first", content := none, author := none, date := none } ∧
    search_posts seedPosts
        { title := none, content := some "", author := none, date := none } = seedPosts := by
  have h := claim7_search_title_content seedPosts
    { title := some "first", content := none, author := none, date := none }
  have h0 := claim7_search_title_content seedPosts
    { title := none, content := some "", author := none, date := none }
  refine ⟨?_, h.2.1 (some "x") (some "y"), h0.2.2 (Or.inl rfl) (Or.inr rfl)⟩
  refine (h.1 _).mpr ⟨by decide, ?_, ?_⟩
  · intro t ht hne
    cases ht
    decide
  · intro c hc hne
    exact Option.noConfusion hc

/-- The sort key as the claim describes it, for comparison with the code:
the case-insensitive field text, a missing field treated as the empty
string — without the trimming the code applies via `_as_str`. -/
def claimSortKey (sort_field : String) (p : Post) : String :=
  lowerStr ((fieldGet p sort_field).getD "")

/-- A post titled `"a"`. -/
def postLowerA : Post :=
  { id := 1, title := some "a", content := none, author := none, date := none,
    likes := 0, comments := [] }

/-- A post titled `" B"` (leading space). -/
def postSpaceB : Post :=
  { id := 2, title := some " B", content := none, author := none, date := none,
    likes := 0, comments := [] }

/-- C8 counterexample: the claim orders posts by the case-insensitive text
of the field, under which `" B"` (key `" b"`, leading space) sorts before
`"a"`; the code first trims the field via `_as_str`, giving key `"b"`, so
ascending title sort puts `"a"` first.  The stable sort by the claim's
untrimmed key predicts the opposite order of the code's output. -/
theorem claim8_sort_key_cex :
    list_posts [postLowerA, postSpaceB] (some "title") (some "asc") =
      Except.ok [postLowerA, postSpaceB] ∧
    stableSortBy
        (fun a b => strLe (claimSortKey "title" a) (claimSortKey "title" b))
        [postLowerA, postSpaceB] = [postSpaceB, postLowerA] ∧
    Except.ok [postLowerA, postSpaceB] ≠
      (Except.ok [postSpaceB, postLowerA] : Except String (List Post)) := by
  refine ⟨by decide, by decide, ?_⟩
  intro h
  have h2 : [postLowerA, postSpaceB] = [postSpaceB, postLowerA] := Except.ok.inj h
  have h3 : postLowerA = postSpaceB := (List.cons.injEq .. ▸ h2).1
  exact absurd h3 (by decide)

/-- C8 (amended): sorting by `title` or `content` orders posts by
case-insensitive lexicographic comparison of the field's trimmed text
(missing field treated as empty), ascending unless direction is `desc`,
and the sort is stable: for every key value the posts carrying that key
appear in their on-disk relative order. -/
theorem claim8_sort_stable (posts : List Post) (sf : String)
    (hsf : sf = "title" ∨ sf = "content") (direction : Option String)
    (hdir : direction = none ∨ direction = some "asc" ∨ direction = some "desc") :
    ∃ out, list_posts posts (some sf) direction = Except.ok out ∧
      out.Perm posts ∧
      (∀ k, out.filter (fun p => sortKey sf p == k) =
        posts.filter (fun p => sortKey sf p == k)) ∧
      (direction = some "desc" →
        out.Pairwise (fun a b => strLe (sortKey sf b) (sortKey sf a) = true)) ∧
      (direction ≠ some "desc" →
        out.Pairwise (fun a b => strLe (sortKey sf a) (sortKey sf b) = true)) := by
  rcases hsf with rfl | rfl <;>
    rcases hdir with rfl | rfl | rfl <;>
      refine ⟨_, rfl, pySorted_perm _ _ posts, pySorted_filter _ _ posts, ?_, ?_⟩ <;>
        first
          | (intro h; exact absurd h (by decide))
          | (intro h; exact absurd rfl h)
          | (intro _; exact pySorted_pairwise_asc _ posts)
          | (intro _; exact pySorted_pairwise_desc _ posts)

/-- Witness for C8 (amended): instantiation on a concrete two-post store,
title field, ascending direction. -/
theorem claim8_sort_stable_witness :
    ∃ out, list_posts [postLowerA, postSpaceB] (some "title") (some "asc") =
        Except.ok out ∧
      out.Perm [postLowerA, postSpaceB] ∧
      (∀ k, out.filter (fun p => sortKey "title" p == k) =
        [postLowerA, postSpaceB].filter (fun p => sortKey "title" p == k)) ∧
      (some "asc" = some "desc" →
        out.Pairwise (fun a b => strLe (sortKey "title" b) (sortKey "title" a) = true)) ∧
      (some "asc" ≠ some "desc" →
        out.Pairwise (fun a b => strLe (sortKey "title" a) (sortKey "title" b) = true)) :=
  claim8_sort_stable [postLowerA, postSpaceB] "title" (Or.inl rfl) (some "asc")
    (Or.inr (Or.inl rfl))

/-- A post (id 7) whose comments carry ids 1 and 3. -/
def commentedPost : Post :=
  { id := 7, title := some "t", content := some "c", author := some "a",
    date := some "2024-01-01", likes := 0,
    comments := [{ id := 1, author := "x", text := "y", date := "2024-01-02" },
                 { id := 3, author := "x", text := "y", date := "2024-01-03" }] }

/-- C9: adding a comment to an existing post with non-empty trimmed author
and text succeeds, and the new comment's id is one more than the maximum id
among that post's own comments (1 when it has none) — an expression over
the target post only, hence independent of every other post's comments. -/
theorem claim9_comment_id_allocation (posts : List Post) (post_id : Int)
    (authorIn textIn : Option String) (today : String) (target : Post)
    (hf : _find_post posts post_id = some target)
    (ha : _as_str authorIn ≠ "") (hx : _as_str textIn ≠ "") :
    ∃ c, (add_comment posts post_id authorIn textIn today).2 = CommentResp.created c ∧
      c.id = (if target.comments = [] then 1
        else maxIdOr0 (target.comments.map Comment.id) + 1) := by
  have hcond : ¬(_as_str authorIn = "" ∨ _as_str textIn = "") := by
    push_neg
    exact ⟨ha, hx⟩
  simp only [add_comment, hf, if_neg hcond]
  refine ⟨_, rfl, ?_⟩
  cases hc : target.comments with
  | nil => simp [hc, maxIdOr0]
  | cons c cs => simp [hc]

/-- Witness for C9: on a post whose comments have ids `{1, 3}`, the next
assigned comment id is 4. -/
theorem claim9_comment_id_allocation_witness :
    ∃ c, (add_comment [commentedPost] 7 (some "al") (some "hi") "2025-01-01").2 =
        CommentResp.created c ∧
      c.id = 4 := by
  obtain ⟨c, h1, h2⟩ := claim9_comment_id_allocation [commentedPost] 7
    (some "al") (some "hi") "2025-01-01" commentedPost (by decide) (by decide) (by decide)
  exact ⟨c, h1, h2.trans (by decide)⟩

/-- C10: when no sort field is supplied, the direction parameter is ignored
entirely — any direction value yields the posts in on-disk order with no
error — and an invalid-direction error can only arise when the supplied
sort field is one of the allowed fields `title`, `content`. -/
theorem claim10_direction_ignored_without_sort :
    (∀ (posts : List Post) (direction : Option String),
      list_posts posts none direction = Except.ok posts) ∧
    (∀ (posts : List Post) (sf : String) (direction : Option String),
      list_posts posts (some sf) direction =
        Except.error "Invalid direction. Use asc or desc." →
      sf = "title" ∨ sf = "content") := by
  constructor
  · intro posts direction
    rfl
  · intro posts sf direction h
    simp only [list_posts] at h
    by_cases h1 : sf = ""
    · rw [if_pos h1] at h
      exact Except.noConfusion h
    · rw [if_neg h1] at h
      by_cases h2 : sf ≠ "title" ∧ sf ≠ "content"
      · rw [if_pos h2] at h
        have := Except.error.inj h
        exact absurd this (by decide)
      · push_neg at h2
        by_cases h3 : sf = "title"
        · exact Or.inl h3
        · exact Or.inr (h2 h3)

/-- Witness for C10: with no sort field the bogus direction `down` is
ignored on the seed store, and the direction error raised for sort field
`title` indeed has an allowed sort field. -/
theorem claim10_direction_ignored_without_sort_witness :
    list_posts seedPosts none (some "down") = Except.ok seedPosts ∧
    (("title" : String) = "title" ∨ ("title" : String) = "content") := by
  refine ⟨claim10_direction_ignored_without_sort.1 seedPosts (some "down"), ?_⟩
  exact claim10_direction_ignored_without_sort.2 seedPosts "title" (some "down") (by decide)

end Masterblog
